/-
  Verification of the tab-filter plugin (`tabfilter.py`).

  Shallow embedding: the plugin is a thin orchestration layer over a host
  editor's window/view/quick-panel API.  We model the host objects the
  plugin reads (views with an id and an optional file name, a window made
  of groups of views, settings) and the effects the plugin issues
  (focusing a view, opening a file with flag constants, showing the quick
  panel) as plain data.  Each method of `TabFilterCommand` becomes a pure
  function from its inputs to the effects it performs and the instance
  state it leaves behind.  Fallible Python list indexing is modelled with
  `Option` (`none` = an uncaught `IndexError`).
-/
import Mathlib

/-- A host editor view (an open document handle): its identity (`View.id`,
the value of the host's `view.id()`) and the result of `view.file_name()`
(`none` when the view has no file on disk, e.g. a transient/unsaved tab). -/
structure View where
  id : Nat
  file_name : Option String
deriving DecidableEq, Repr

/-- The `sublime` flag constants the plugin passes to `Window.open_file`. -/
inductive SublimeFlag where
  | add_to_selection
  | clear_to_right
  | replace_mru
deriving DecidableEq, Repr

/-- An effect the plugin asks the host to perform: focusing a view
(`window.focus_view`) or opening a file with the given flag constants
(`window.open_file`). -/
inductive Effect where
  | focusView (v : View)
  | openFile (fname : String) (flags : List SublimeFlag)
deriving DecidableEq, Repr

/-- Modelled from the spec: the `Tab` entity from `lib/entities` (absent
from the sources) wraps an open-document handle together with its computed
display strings, which the formatting rules mutate. -/
structure Tab where
  view : View
  details : List String
deriving DecidableEq, Repr

/-- Modelled from the spec: `Tab(view)` constructs a tab for the given
view, with its display label not yet formatted. -/
def Tab.ofView (v : View) : Tab :=
  { view := v, details := [] }

/-- Modelled from the spec: `Tab.get_details` returns the per-tab display
strings (the rendered label lines) after formatting. -/
def Tab.get_details (t : Tab) : List String :=
  t.details

/-- Modelled from the spec: a `TabSetting` from `lib/settings` (absent from
the sources) is a formatting rule whose `apply` maps a list of tabs to a
list of tabs, mutating display labels.  The four concrete rules
(common-prefix trimming, group caption, captions, path inclusion) are kept
abstract; theorems quantify over them. -/
structure TabSetting where
  apply : List Tab → List Tab

/-- The slice of `tabfilter.sublime-settings` that `run` reads:
`settings.get("preview_tab")`, `none` when the key is unset or holds a
non-boolean value (the code compares with `is True`). -/
structure Settings where
  preview_tab : Option Bool
deriving DecidableEq, Repr

/-- A host window: its groups (panes), each a list of views in tab order
(`window.views_in_group`), the id of the currently active view
(`window.active_view().id()`) and the active group index
(`window.active_group()`). -/
structure Window where
  groups : List (List View)
  activeViewId : Nat
  activeGroup : Nat
deriving DecidableEq, Repr

/-- `window.num_groups()`. -/
def num_groups (w : Window) : Nat :=
  w.groups.length

/-- `window.views_in_group(group_idx)`: the views of that group, `[]` for
an index outside the window's groups. -/
def views_in_group (w : Window) (group_idx : Int) : List View :=
  if 0 ≤ group_idx then w.groups.getD group_idx.toNat [] else []

/-- Python list indexing `xs[i]`: a negative index counts from the end;
`none` models an uncaught `IndexError`. -/
def pyGet {α : Type} (xs : List α) (i : Int) : Option α :=
  let j : Int := if i < 0 then i + (xs.length : Int) else i
  if h : 0 ≤ j ∧ j < (xs.length : Int) then
    some (xs.get ⟨j.toNat, by omega⟩)
  else
    none

/-- The instance fields of `TabFilterCommand` that carry state across
calls: `self.views` and `self.current_tab_idx`. -/
structure CmdState where
  views : List View
  current_tab_idx : Int
deriving DecidableEq, Repr

/-- One call to `window.show_quick_panel`, recorded as data: the items
shown, whether the `on_highlight` callback was registered, whether the
`WANT_EVENT` flag was passed, and the `selected_index` argument (`none`
when the argument was not given). -/
structure PanelCall where
  items : List (List String)
  on_highlight_registered : Bool
  want_event : Bool
  selected_index : Option Int
deriving DecidableEq, Repr

/-- The loop state of `gather_tabs`: the growing `self.views`, the growing
`tabs` list, the running counter `idx`, and `self.current_tab_idx`. -/
structure GatherAcc where
  views : List View
  tabs : List Tab
  idx : Nat
  cur : Int
deriving Repr

/-- One iteration of the inner loop of `gather_tabs`: append the view to
`self.views`, record `idx` in `current_tab_idx` when the view is the
window's active view, append `Tab(view)`, and increment `idx`. -/
def gatherView (activeId : Nat) (acc : GatherAcc) (v : View) : GatherAcc :=
  { views := acc.views ++ [v]
    cur := if activeId = v.id then (acc.idx : Int) else acc.cur
    tabs := acc.tabs ++ [Tab.ofView v]
    idx := acc.idx + 1 }

/-- `TabFilterCommand.gather_tabs(group_indexes)`: resets `self.views`,
walks the groups in the given order and each group's views in order, and
returns `(tabs, self.views, self.current_tab_idx)`.  `cur0` is the value
`self.current_tab_idx` holds on entry (it is not reset by the method). -/
def gather_tabs (w : Window) (cur0 : Int) (group_indexes : List Int) :
    List Tab × List View × Int :=
  let acc := group_indexes.foldl
    (fun a gi => (views_in_group w gi).foldl (gatherView w.activeViewId) a)
    { views := [], tabs := [], idx := 0, cur := cur0 }
  (acc.tabs, acc.views, acc.cur)

/-- The flattened list of views `gather_tabs` walks: the groups in the
given order, each group's views in order. -/
def gatheredViews (w : Window) (group_indexes : List Int) : List View :=
  (group_indexes.map (views_in_group w)).flatten

/-- `TabFilterCommand.format_tabs(tabs, formatting_settings)`: applies
each formatting setting in turn, each rule's output feeding the next, then
returns `tab.get_details()` for every resulting tab. -/
def format_tabs (tabs : List Tab) (formatting_settings : List TabSetting) :
    List (List String) :=
  (formatting_settings.foldl (fun ts s => s.apply ts) tabs).map Tab.get_details

/-- `TabFilterCommand.display_quick_info_panel(tabs, preview)`: with
`preview` true the quick panel is shown with the highlight callback,
`WANT_EVENT`, and `selected_index=self.current_tab_idx`; otherwise it is
shown with neither callback registration nor a selected index. -/
def display_quick_info_panel (cur : Int) (tabs : List (List String))
    (preview : Bool) : PanelCall :=
  if preview then
    { items := tabs
      on_highlight_registered := true
      want_event := true
      selected_index := some cur }
  else
    { items := tabs
      on_highlight_registered := false
      want_event := false
      selected_index := none }

/-- `TabFilterCommand.on_done(index, event)`: the list of host effects the
callback performs, given `self.views`, `self.current_tab_idx`, the
confirmed `index` and the modifier keys of the event
(`event["modifier_keys"].keys()`).  `none` models an uncaught exception
(an `IndexError` from `self.views[...]` or `open_file(None, ...)`). -/
def on_done (views : List View) (cur : Int) (index : Int)
    (modifiers : List String) : Option (List Effect) :=
  if index = -1 ∧ cur ≠ -1 then
    match pyGet views cur with
    | none => none
    | some v => some [Effect.focusView v]
  else if -1 < index ∧ index < (views.length : Int) then
    match pyGet views index with
    | none => none
    | some chosen =>
      let not_transient : Bool := chosen.file_name.isSome
      let other_view : Bool := cur != index
      let side_by_side_enabled : Bool :=
        (cur != -1) && not_transient && other_view
      if modifiers.contains "shift" && side_by_side_enabled then
        match pyGet views cur, chosen.file_name with
        | some cv, some f =>
            some [Effect.focusView cv,
                  Effect.openFile f [SublimeFlag.add_to_selection]]
        | _, _ => none
      else if modifiers.contains "primary" && side_by_side_enabled then
        match pyGet views cur, chosen.file_name with
        | some cv, some f =>
            some [Effect.focusView cv,
                  Effect.openFile f
                    [SublimeFlag.add_to_selection, SublimeFlag.clear_to_right]]
        | _, _ => none
      else if modifiers.contains "alt" && side_by_side_enabled then
        match pyGet views cur, chosen.file_name with
        | some cv, some f =>
            some [Effect.focusView cv,
                  Effect.openFile f
                    [SublimeFlag.add_to_selection, SublimeFlag.replace_mru]]
        | _, _ => none
      else
        some [Effect.focusView chosen]
  else
    some []

/-- `TabFilterCommand.on_highlighted(index)`: focuses the view at a valid
index and does nothing otherwise.  (The inner `none` arm is unreachable:
the guard makes the index valid.) -/
def on_highlighted (views : List View) (index : Int) : List Effect :=
  if -1 < index ∧ index < (views.length : Int) then
    match pyGet views index with
    | some v => [Effect.focusView v]
    | none => []
  else []

/-- The group indexes `run` gathers from: all groups when
`active_group_only` is false, otherwise just the active group. -/
def runGroups (w : Window) (active_group_only : Bool) : List Int :=
  if active_group_only = false then
    (List.range (num_groups w)).map Int.ofNat
  else
    [(w.activeGroup : Int)]

/-- The formatting chain `run` builds, in its fixed order: common-prefix
trimming, group caption, captions, path inclusion (the four setting
objects are parameters, their rules living in the absent `lib/settings`). -/
def formatting_settings (common_prefix_s group_caption_s captions_s path_s :
    TabSetting) : List TabSetting :=
  [common_prefix_s, group_caption_s, captions_s, path_s]

/-- `TabFilterCommand.run(active_group_only)`: resets `self.views`,
gathers tabs from the chosen groups, computes the preview flag
(`preview_tab` is `True`, and when all groups are listed also
`num_groups() == 1`), formats the tabs through the fixed chain and shows
the quick panel.  Returns the final instance state and the panel call. -/
def runCmd (w : Window) (settings : Settings)
    (common_prefix_s group_caption_s captions_s path_s : TabSetting)
    (st : CmdState) (active_group_only : Bool) : CmdState × PanelCall :=
  let st1 : CmdState := { st with views := [] }
  let r := gather_tabs w st1.current_tab_idx (runGroups w active_group_only)
  let preview0 : Bool := settings.preview_tab == some true
  let preview : Bool :=
    if active_group_only = false then preview0 && (num_groups w == 1)
    else preview0
  let st2 : CmdState := { views := r.2.1, current_tab_idx := r.2.2 }
  (st2,
   display_quick_info_panel st2.current_tab_idx
     (format_tabs r.1
       (formatting_settings common_prefix_s group_caption_s captions_s path_s))
     preview)

/-! Concrete host objects used to instantiate theorems. -/

/-- A view with a file on disk. -/
def viewA : View := { id := 1, file_name := some "/a.txt" }

/-- A transient view (no file on disk). -/
def viewB : View := { id := 2, file_name := none }

/-- Another view with a file on disk. -/
def viewC : View := { id := 3, file_name := some "/c.txt" }

/-- A two-group window whose active view is `viewC`. -/
def winA : Window :=
  { groups := [[viewA, viewB], [viewC]], activeViewId := 3, activeGroup := 1 }

/-- The identity formatting rule. -/
def idSetting : TabSetting := { apply := fun ts => ts }

/-! Helper lemmas. -/

/-- Python indexing with a valid non-negative index is plain list lookup. -/
lemma pyGet_eq_get {α : Type} (xs : List α) (i : Int) (h0 : 0 ≤ i)
    (h1 : i.toNat < xs.length) :
    pyGet xs i = some (xs.get ⟨i.toNat, h1⟩) := by
  have hj : ¬ i < 0 := by omega
  have h2 : i < (xs.length : Int) := by omega
  simp [pyGet, hj, h0, h2]

/-- When the side-by-side condition fails or no modifier is held,
`on_done` on a valid index focuses exactly the chosen view. -/
lemma on_done_plain (views : List View) (cur index : Int)
    (modifiers : List String) (h0 : 0 ≤ index) (h1 : index.toNat < views.length)
    (hsbs : cur = -1 ∨ (views.get ⟨index.toNat, h1⟩).file_name = none ∨ cur = index
            ∨ (modifiers.contains "shift" = false
               ∧ modifiers.contains "primary" = false
               ∧ modifiers.contains "alt" = false)) :
    on_done views cur index modifiers =
      some [Effect.focusView (views.get ⟨index.toNat, h1⟩)] := by
  have hne : ¬ (index = -1 ∧ cur ≠ -1) := by
    rintro ⟨rfl, -⟩; omega
  have hrange : -1 < index ∧ index < (views.length : Int) := ⟨by omega, by omega⟩
  unfold on_done
  rw [if_neg hne, if_pos hrange, pyGet_eq_get views index h0 h1]
  rcases hsbs with h | h | h | ⟨hs, hp, ha⟩
  · simp [h]
  · rw [List.get_eq_getElem] at h
    simp [h]
  · simp [h]
  · simp at hs hp ha
    simp [hs, hp, ha]

/-- C1: when a focused tab was recorded (`current_tab_idx != -1`, i.e. a
valid recorded position), confirming with index `-1` (panel cancelled)
focuses the view stored at `current_tab_idx` in `self.views`, restoring
the originally active document; when none was recorded
(`current_tab_idx == -1`), cancellation performs no effect at all. -/
theorem on_done_cancel_restores_focus (views : List View) (cur : Int)
    (modifiers : List String) :
    (cur = -1 → on_done views cur (-1) modifiers = some []) ∧
    (∀ (h0 : 0 ≤ cur) (h1 : cur.toNat < views.length),
      on_done views cur (-1) modifiers =
        some [Effect.focusView (views.get ⟨cur.toNat, h1⟩)]) := by
  constructor
  · intro hcur
    unfold on_done
    rw [if_neg (by simp [hcur]), if_neg (by simp)]
  · intro h0 h1
    unfold on_done
    rw [if_pos ⟨rfl, by omega⟩, pyGet_eq_get views cur h0 h1]

/-- Witness for C1 at concrete inputs. -/
theorem on_done_cancel_restores_focus_witness :
    on_done [viewA] 0 (-1) [] = some [Effect.focusView viewA] ∧
    on_done [viewA] (-1) (-1) [] = some [] :=
  ⟨(on_done_cancel_restores_focus [viewA] 0 []).2 (by decide) (by decide),
   (on_done_cancel_restores_focus [viewA] (-1) []).1 rfl⟩

/-- C2: for a confirmed in-range index with no side-by-side modifier in
effect — none of shift/primary/alt held, or the side-by-side precondition
failing (no recorded tab, transient chosen view, or chosen = current) —
`on_done` focuses exactly the chosen view `self.views[index]`. -/
theorem on_done_focuses_chosen_view (views : List View) (cur index : Int)
    (modifiers : List String) (h0 : 0 ≤ index) (h1 : index.toNat < views.length)
    (hm : (modifiers.contains "shift" = false
            ∧ modifiers.contains "primary" = false
            ∧ modifiers.contains "alt" = false)
          ∨ cur = -1 ∨ (views.get ⟨index.toNat, h1⟩).file_name = none
          ∨ cur = index) :
    on_done views cur index modifiers =
      some [Effect.focusView (views.get ⟨index.toNat, h1⟩)] := by
  apply on_done_plain views cur index modifiers h0 h1
  tauto

/-- Witness for C2 at concrete inputs. -/
theorem on_done_focuses_chosen_view_witness :
    on_done [viewA, viewB, viewC] 2 0 [] = some [Effect.focusView viewA] :=
  on_done_focuses_chosen_view [viewA, viewB, viewC] 2 0 [] (by decide)
    (by decide) (Or.inl (by decide))

/-- C9: for a confirmed in-range index with a modifier held but the
side-by-side precondition failing (transient chosen view, chosen index
equal to `current_tab_idx`, or no recorded tab), the modifier is ignored:
`on_done` simply focuses `self.views[index]` and opens no file. -/
theorem on_done_modifier_ignored (views : List View) (cur index : Int)
    (modifiers : List String) (h0 : 0 ≤ index) (h1 : index.toNat < views.length)
    (hmod : modifiers.contains "shift" = true
            ∨ modifiers.contains "primary" = true
            ∨ modifiers.contains "alt" = true)
    (hfail : cur = -1 ∨ (views.get ⟨index.toNat, h1⟩).file_name = none
             ∨ cur = index) :
    on_done views cur index modifiers =
      some [Effect.focusView (views.get ⟨index.toNat, h1⟩)] := by
  apply on_done_plain views cur index modifiers h0 h1
  tauto

/-- Witness for C9 at concrete inputs (shift held, transient chosen view). -/
theorem on_done_modifier_ignored_witness :
    on_done [viewA, viewB, viewC] 2 1 ["shift"] =
      some [Effect.focusView viewB] :=
  on_done_modifier_ignored [viewA, viewB, viewC] 2 1 ["shift"] (by decide)
    (by decide) (Or.inl (by decide)) (Or.inr (Or.inl (by decide)))

/-- C3: for a confirmed in-range index with a modifier held and the
side-by-side precondition satisfied (recorded tab, chosen view with a
file, chosen index different from `current_tab_idx`), `on_done` does not
focus the chosen view: it re-focuses the originally active view and opens
the chosen file with `ADD_TO_SELECTION` (plus `CLEAR_TO_RIGHT` for
primary, `REPLACE_MRU` for alt, shift taking precedence over primary over
alt). -/
theorem on_done_modifier_side_by_side (views : List View) (cur index : Int)
    (modifiers : List String) (f : String)
    (h0 : 0 ≤ index) (h1 : index.toNat < views.length)
    (hc0 : 0 ≤ cur) (hc1 : cur.toNat < views.length)
    (hfile : (views.get ⟨index.toNat, h1⟩).file_name = some f)
    (hother : cur ≠ index)
    (hmod : modifiers.contains "shift" = true
            ∨ modifiers.contains "primary" = true
            ∨ modifiers.contains "alt" = true) :
    on_done views cur index modifiers =
      some [Effect.focusView (views.get ⟨cur.toNat, hc1⟩),
            Effect.openFile f
              (if modifiers.contains "shift" then
                 [SublimeFlag.add_to_selection]
               else if modifiers.contains "primary" then
                 [SublimeFlag.add_to_selection, SublimeFlag.clear_to_right]
               else
                 [SublimeFlag.add_to_selection, SublimeFlag.replace_mru])] := by
  have hne : ¬ (index = -1 ∧ cur ≠ -1) := by
    rintro ⟨rfl, -⟩; omega
  have hrange : -1 < index ∧ index < (views.length : Int) := ⟨by omega, by omega⟩
  unfold on_done
  rw [if_neg hne, if_pos hrange, pyGet_eq_get views index h0 h1]
  rw [List.get_eq_getElem] at hfile
  have hcur : ¬ cur = -1 := by omega
  cases hs : modifiers.contains "shift" with
  | true =>
    simp [hs, hcur, hfile, hother, pyGet_eq_get views cur hc0 hc1]
  | false =>
    cases hp : modifiers.contains "primary" with
    | true =>
      simp [hs, hp, hcur, hfile, hother, pyGet_eq_get views cur hc0 hc1]
    | false =>
      cases ha : modifiers.contains "alt" with
      | true =>
        simp [hs, hp, ha, hcur, hfile, hother, pyGet_eq_get views cur hc0 hc1]
      | false =>
        rcases hmod with h | h | h <;> simp_all

/-- Witness for C3 at concrete inputs (shift held). -/
theorem on_done_modifier_side_by_side_witness :
    on_done [viewC, viewA] 0 1 ["shift"] =
      some [Effect.focusView viewC,
            Effect.openFile "/a.txt" [SublimeFlag.add_to_selection]] :=
  on_done_modifier_side_by_side [viewC, viewA] 0 1 ["shift"] "/a.txt"
    (by decide) (by decide) (by decide) (by decide) (by decide) (by decide)
    (Or.inl (by decide))

/-- The gathering loop appends the walked views to `self.views`. -/
lemma foldl_gatherView_views (aid : Nat) (l : List View) (acc : GatherAcc) :
    (l.foldl (gatherView aid) acc).views = acc.views ++ l := by
  induction l generalizing acc with
  | nil => simp
  | cons v t ih =>
    rw [List.foldl_cons, ih]
    simp [gatherView]

/-- The gathering loop appends one `Tab` per walked view, in order. -/
lemma foldl_gatherView_tabs (aid : Nat) (l : List View) (acc : GatherAcc) :
    (l.foldl (gatherView aid) acc).tabs = acc.tabs ++ l.map Tab.ofView := by
  induction l generalizing acc with
  | nil => simp
  | cons v t ih =>
    rw [List.foldl_cons, ih]
    simp [gatherView]

/-- The gathering loop advances the counter by the number of walked views. -/
lemma foldl_gatherView_idx (aid : Nat) (l : List View) (acc : GatherAcc) :
    (l.foldl (gatherView aid) acc).idx = acc.idx + l.length := by
  induction l generalizing acc with
  | nil => simp
  | cons v t ih =>
    rw [List.foldl_cons, ih]
    simp [gatherView]
    omega

/-- When no walked view is the active one, the recorded index is
unchanged. -/
lemma foldl_gatherView_cur_nomatch (aid : Nat) (l : List View)
    (acc : GatherAcc) (h : ∀ v ∈ l, v.id ≠ aid) :
    (l.foldl (gatherView aid) acc).cur = acc.cur := by
  induction l generalizing acc with
  | nil => rfl
  | cons v t ih =>
    rw [List.foldl_cons, ih _ (fun u hu => h u (List.mem_cons_of_mem _ hu))]
    have hv : ¬ aid = v.id := fun he => h v (List.mem_cons_self _ _) he.symm
    simp [gatherView, hv]

/-- When the active view sits at a unique position among the walked views,
the recorded index is the counter at that position. -/
lemma foldl_gatherView_cur_at (aid : Nat) (l : List View) (acc : GatherAcc)
    (i : Nat) (hi : i < l.length) (hid : (l.get ⟨i, hi⟩).id = aid)
    (huniq : ∀ j (hj : j < l.length), (l.get ⟨j, hj⟩).id = aid → j = i) :
    (l.foldl (gatherView aid) acc).cur = ((acc.idx + i : Nat) : Int) := by
  induction l generalizing acc i with
  | nil => exact absurd hi (Nat.not_lt_zero i)
  | cons v t ih =>
    rw [List.foldl_cons]
    cases i with
    | zero =>
      have hv : aid = v.id := hid.symm
      have hnot : ∀ u ∈ t, u.id ≠ aid := by
        intro u hu hua
        obtain ⟨⟨j, hj⟩, hget⟩ := List.mem_iff_get.mp hu
        have hj1 : j + 1 < (v :: t).length := by simpa using Nat.succ_lt_succ hj
        have : j + 1 = 0 := by
          refine huniq (j + 1) hj1 ?_
          rw [List.get_cons_succ, hget]
          exact hua
        omega
      rw [foldl_gatherView_cur_nomatch _ _ _ hnot]
      simp [gatherView, hv]
    | succ k =>
      have hk : k < t.length := Nat.lt_of_succ_lt_succ hi
      have hvne : ¬ aid = v.id := by
        intro he
        have : (0 : Nat) = k + 1 :=
          huniq 0 (Nat.succ_pos _) (by simpa using he.symm)
        omega
      have hid2 : (t.get ⟨k, hk⟩).id = aid := by simpa using hid
      have huniq2 : ∀ j (hj : j < t.length), (t.get ⟨j, hj⟩).id = aid → j = k := by
        intro j hj hja
        have : j + 1 = k + 1 :=
          huniq (j + 1) (by simpa using Nat.succ_lt_succ hj) (by simpa using hja)
        omega
      rw [ih _ _ hk hid2 huniq2]
      simp [gatherView, hvne]
      omega

/-- The nested group/view loops of `gather_tabs` walk exactly the
flattened view list. -/
lemma gather_foldl_flatten (w : Window) (gidx : List Int) (acc : GatherAcc) :
    gidx.foldl
        (fun a gi => (views_in_group w gi).foldl (gatherView w.activeViewId) a)
        acc
      = (gatheredViews w gidx).foldl (gatherView w.activeViewId) acc := by
  induction gidx generalizing acc with
  | nil => rfl
  | cons g t ih =>
    rw [List.foldl_cons, ih]
    simp [gatheredViews, List.foldl_append]

/-- C4: `gather_tabs` returns one `Tab` per view of the given groups in
group order then within-group order, stores the same views in the same
order in `self.views` (equal length, position-wise correspondence), and —
when the window's active view occurs among the gathered views (at a
position, view ids being distinct) — records that position in
`current_tab_idx`. -/
theorem gather_tabs_collects_views_in_order (w : Window) (cur0 : Int)
    (group_indexes : List Int) :
    (gather_tabs w cur0 group_indexes).2.1 = gatheredViews w group_indexes ∧
    (gather_tabs w cur0 group_indexes).1
      = (gatheredViews w group_indexes).map Tab.ofView ∧
    ((gather_tabs w cur0 group_indexes).1).map Tab.view
      = (gather_tabs w cur0 group_indexes).2.1 ∧
    (∀ (i : Nat) (hi : i < (gatheredViews w group_indexes).length),
      ((gatheredViews w group_indexes).get ⟨i, hi⟩).id = w.activeViewId →
      ((gatheredViews w group_indexes).map View.id).Nodup →
      (gather_tabs w cur0 group_indexes).2.2 = (i : Int)) := by
  have hviews : (gather_tabs w cur0 group_indexes).2.1
      = gatheredViews w group_indexes := by
    unfold gather_tabs
    rw [gather_foldl_flatten]
    dsimp only
    rw [foldl_gatherView_views]
    simp
  have htabs : (gather_tabs w cur0 group_indexes).1
      = (gatheredViews w group_indexes).map Tab.ofView := by
    unfold gather_tabs
    rw [gather_foldl_flatten]
    dsimp only
    rw [foldl_gatherView_tabs]
    simp
  refine ⟨hviews, htabs, ?_, ?_⟩
  · rw [htabs, hviews]
    have hco : Tab.view ∘ Tab.ofView = id := rfl
    rw [List.map_map, hco, List.map_id]
  · intro i hi hid hnd
    have huniq : ∀ j (hj : j < (gatheredViews w group_indexes).length),
        ((gatheredViews w group_indexes).get ⟨j, hj⟩).id = w.activeViewId
          → j = i := by
      intro j hj hja
      have hj2 : j < ((gatheredViews w group_indexes).map View.id).length := by
        simpa using hj
      have hi2 : i < ((gatheredViews w group_indexes).map View.id).length := by
        simpa using hi
      have heq : ((gatheredViews w group_indexes).map View.id).get ⟨j, hj2⟩
          = ((gatheredViews w group_indexes).map View.id).get ⟨i, hi2⟩ := by
        simp only [List.get_eq_getElem] at hja hid ⊢
        simp only [List.getElem_map]
        rw [hja, hid]
      simpa using hnd.get_inj_iff.mp heq
    unfold gather_tabs
    rw [gather_foldl_flatten]
    dsimp only
    simpa using
      foldl_gatherView_cur_at w.activeViewId (gatheredViews w group_indexes)
        { views := [], tabs := [], idx := 0, cur := cur0 } i hi hid huniq

/-- Witness for C4 on the concrete two-group window `winA`. -/
theorem gather_tabs_collects_views_in_order_witness :
    (gather_tabs winA (-1) [0, 1]).2.1 = [viewA, viewB, viewC] ∧
    (gather_tabs winA (-1) [0, 1]).2.2 = 2 := by
  constructor
  · rw [(gather_tabs_collects_views_in_order winA (-1) [0, 1]).1]
    decide
  · exact (gather_tabs_collects_views_in_order winA (-1) [0, 1]).2.2.2
      2 (by decide) (by decide) (by decide)

/-- C8: `format_tabs` applies the formatting rules as a chain in the fixed
order built by `run` — common-prefix trimming, group caption, captions,
path inclusion — each rule's output feeding the next, and returns the
per-tab display details of the tabs produced by the whole chain. -/
theorem format_tabs_applies_chain_in_order
    (common_prefix_s group_caption_s captions_s path_s : TabSetting)
    (tabs : List Tab) :
    format_tabs tabs
        (formatting_settings common_prefix_s group_caption_s captions_s path_s)
      = (path_s.apply (captions_s.apply (group_caption_s.apply
          (common_prefix_s.apply tabs)))).map Tab.get_details := rfl

/-- Counterexample for C7 as stated: the callbacks do contain explicit
index validation.  For the out-of-range index 5 on a one-view list, plain
Python indexing raises (`pyGet` is `none`), yet both callbacks return
gracefully with no effect — the explicit bounds guard
`index > -1 and index < len(self.views)` defends against the host
supplying an out-of-range index. -/
theorem callbacks_validate_counterexample :
    pyGet [viewA] 5 = none ∧
    on_done [viewA] (-1) 5 ["shift"] = some [] ∧
    on_highlighted [viewA] 5 = [] := by
  refine ⟨rfl, rfl, rfl⟩

/-- C7 amended: each callback guards selection indices with the explicit
bounds check `index > -1 and index < len(self.views)` and silently ignores
an out-of-range index (no recovery, retry, or propagation beyond the
guard); only the cancellation branch trusts `current_tab_idx` without
validation. -/
theorem callbacks_bounds_guard (views : List View) (cur index : Int)
    (modifiers : List String)
    (hout : ¬ (-1 < index ∧ index < (views.length : Int)))
    (hne : index ≠ -1) :
    on_done views cur index modifiers = some [] ∧
    on_highlighted views index = [] := by
  constructor
  · unfold on_done
    rw [if_neg (fun hc => hne hc.1), if_neg hout]
  · unfold on_highlighted
    rw [if_neg hout]

/-- Witness for the amended C7 at a concrete out-of-range index. -/
theorem callbacks_bounds_guard_witness :
    on_done [viewA] 0 5 ["shift"] = some [] ∧
    on_highlighted [viewA] 5 = [] :=
  callbacks_bounds_guard [viewA] 0 5 ["shift"] (by decide) (by decide)

/-- Counterexample for C6 as stated: `current_tab_idx` is not reset at the
start of `run`.  With a window whose active view (id 99) is not among the
gathered views, a stale `current_tab_idx = 5` recorded by a previous
invocation survives the whole invocation instead of starting at the
initial `-1`. -/
theorem run_stale_current_tab_idx_counterexample :
    ((runCmd { groups := [[viewA]], activeViewId := 99, activeGroup := 0 }
        { preview_tab := some true } idSetting idSetting idSetting idSetting
        { views := [viewB], current_tab_idx := 5 } false).1.current_tab_idx
      = 5)
    ∧ (5 : Int) ≠ -1 := by
  exact ⟨rfl, by decide⟩

/-- C6 amended: `self.views` is reset at the start of each invocation (the
whole result is independent of the incoming `views`), but
`current_tab_idx` is not reset: it is only overwritten when the active
view is found while gathering, so when no gathered view is the active one
the value recorded by a previous invocation persists. -/
theorem run_resets_views_but_not_current_tab_idx (w : Window)
    (settings : Settings)
    (common_prefix_s group_caption_s captions_s path_s : TabSetting)
    (st : CmdState) (active_group_only : Bool) :
    (runCmd w settings common_prefix_s group_caption_s captions_s path_s
        st active_group_only
      = runCmd w settings common_prefix_s group_caption_s captions_s path_s
          { views := [], current_tab_idx := st.current_tab_idx }
          active_group_only) ∧
    ((∀ v ∈ gatheredViews w (runGroups w active_group_only),
        v.id ≠ w.activeViewId) →
      (runCmd w settings common_prefix_s group_caption_s captions_s path_s
          st active_group_only).1.current_tab_idx = st.current_tab_idx) := by
  constructor
  · rfl
  · intro hno
    unfold runCmd gather_tabs
    dsimp only
    rw [gather_foldl_flatten, foldl_gatherView_cur_nomatch _ _ _ hno]

/-- Witness for the amended C6: with the active view absent from the
gathered views, the stale index survives. -/
theorem run_resets_views_but_not_current_tab_idx_witness :
    (runCmd { groups := [[viewA]], activeViewId := 99, activeGroup := 0 }
        { preview_tab := some true } idSetting idSetting idSetting idSetting
        { views := [viewB], current_tab_idx := 7 } false).1.current_tab_idx
      = 7 :=
  (run_resets_views_but_not_current_tab_idx
      { groups := [[viewA]], activeViewId := 99, activeGroup := 0 }
      { preview_tab := some true } idSetting idSetting idSetting idSetting
      { views := [viewB], current_tab_idx := 7 } false).2 (by decide)

/-- C5: the quick panel is shown with `selected_index = current_tab_idx`
(the previously active item pre-selected) exactly when the `preview_tab`
setting is `True` and — when tabs from all groups are listed
(`active_group_only` false) — the window has exactly one group; otherwise
the panel is shown with no `selected_index` argument. -/
theorem run_preselects_iff_preview (w : Window) (settings : Settings)
    (common_prefix_s group_caption_s captions_s path_s : TabSetting)
    (st : CmdState) (active_group_only : Bool) :
    (runCmd w settings common_prefix_s group_caption_s captions_s path_s
        st active_group_only).2.selected_index
      = if settings.preview_tab = some true
            ∧ (active_group_only = true ∨ num_groups w = 1) then
          some ((runCmd w settings common_prefix_s group_caption_s captions_s
              path_s st active_group_only).1.current_tab_idx)
        else none := by
  cases active_group_only with
  | false =>
    by_cases hpt : settings.preview_tab = some true
    · by_cases hg : num_groups w = 1
      · simp [runCmd, display_quick_info_panel, hpt, hg]
      · simp [runCmd, display_quick_info_panel, hpt, hg]
    · simp [runCmd, display_quick_info_panel, hpt]
  | true =>
    by_cases hpt : settings.preview_tab = some true
    · simp [runCmd, display_quick_info_panel, hpt]
    · simp [runCmd, display_quick_info_panel, hpt]

/-- C10: the highlight callback is registered with the quick panel exactly
when preview mode is enabled; `on_highlighted` focuses `self.views[index]`
for every in-range index and leaves focus unchanged (no effect) for every
other index. -/
theorem highlight_registered_iff_preview (w : Window) (settings : Settings)
    (common_prefix_s group_caption_s captions_s path_s : TabSetting)
    (st : CmdState) (active_group_only : Bool)
    (views : List View) (index : Int) :
    ((runCmd w settings common_prefix_s group_caption_s captions_s path_s
          st active_group_only).2.on_highlight_registered = true
      ↔ (settings.preview_tab = some true
          ∧ (active_group_only = true ∨ num_groups w = 1))) ∧
    (∀ (h0 : 0 ≤ index) (h1 : index.toNat < views.length),
      on_highlighted views index
        = [Effect.focusView (views.get ⟨index.toNat, h1⟩)]) ∧
    (¬ (-1 < index ∧ index < (views.length : Int)) →
      on_highlighted views index = []) := by
  refine ⟨?_, ?_, ?_⟩
  · cases active_group_only with
    | false =>
      by_cases hpt : settings.preview_tab = some true
      · by_cases hg : num_groups w = 1
        · simp [runCmd, display_quick_info_panel, hpt, hg]
        · simp [runCmd, display_quick_info_panel, hpt, hg]
      · simp [runCmd, display_quick_info_panel, hpt]
    | true =>
      by_cases hpt : settings.preview_tab = some true
      · simp [runCmd, display_quick_info_panel, hpt]
      · simp [runCmd, display_quick_info_panel, hpt]
  · intro h0 h1
    unfold on_highlighted
    rw [if_pos ⟨by omega, by omega⟩, pyGet_eq_get views index h0 h1]
  · intro hout
    unfold on_highlighted
    rw [if_neg hout]

/-- Witness for C10: a single-group window with preview on registers the
callback, and `on_highlighted` focuses the highlighted view. -/
theorem highlight_registered_iff_preview_witness :
    ((runCmd { groups := [[viewA, viewB]], activeViewId := 1, activeGroup := 0 }
        { preview_tab := some true } idSetting idSetting idSetting idSetting
        { views := [], current_tab_idx := -1 }
        false).2.on_highlight_registered = true) ∧
    on_highlighted [viewA, viewB] 1 = [Effect.focusView viewB] ∧
    on_highlighted [viewA, viewB] 5 = [] := by
  refine ⟨?_, ?_, ?_⟩
  · exact (highlight_registered_iff_preview
      { groups := [[viewA, viewB]], activeViewId := 1, activeGroup := 0 }
      { preview_tab := some true } idSetting idSetting idSetting idSetting
      { views := [], current_tab_idx := -1 } false [viewA, viewB] 1).1.mpr
      ⟨rfl, Or.inr rfl⟩
  · exact (highlight_registered_iff_preview
      { groups := [[viewA, viewB]], activeViewId := 1, activeGroup := 0 }
      { preview_tab := some true } idSetting idSetting idSetting idSetting
      { views := [], current_tab_idx := -1 } false [viewA, viewB] 1).2.1
      (by decide) (by decide)
  · exact (highlight_registered_iff_preview
      { groups := [[viewA, viewB]], activeViewId := 1, activeGroup := 0 }
      { preview_tab := some true } idSetting idSetting idSetting idSetting
      { views := [], current_tab_idx := -1 } false [viewA, viewB] 5).2.2
      (by decide)

/-- Witness for C5: with one group and `preview_tab` on, the panel is
pre-selected at the recorded index; with two groups it is not. -/
theorem run_preselects_iff_preview_witness :
    ((runCmd { groups := [[viewA, viewB]], activeViewId := 2, activeGroup := 0 }
        { preview_tab := some true } idSetting idSetting idSetting idSetting
        { views := [], current_tab_idx := -1 } false).2.selected_index
      = some 1) ∧
    ((runCmd winA { preview_tab := some true } idSetting idSetting idSetting
        idSetting { views := [], current_tab_idx := -1 }
        false).2.selected_index = none) := by
  constructor
  · rw [run_preselects_iff_preview
      { groups := [[viewA, viewB]], activeViewId := 2, activeGroup := 0 }
      { preview_tab := some true } idSetting idSetting idSetting idSetting
      { views := [], current_tab_idx := -1 } false]
    rw [if_pos ⟨rfl, Or.inr rfl⟩]
    rfl
  · rw [run_preselects_iff_preview winA { preview_tab := some true }
      idSetting idSetting idSetting idSetting
      { views := [], current_tab_idx := -1 } false]
    rw [if_neg (by decide)]
